import Mathlib

/-!
Verification of the peer-identity subsystem of a libp2p implementation:
the peer-id dispatch module (`peerIdFromString` / `peerIdFromMultihash` /
`peerIdFromCID` / `peerIdFromPublicKey`) and the RSA key codec
(`packages/crypto/src/keys/rsa/utils.ts`).

The byte-level collaborators that the source treats as external libraries
(multibase decoding, multihash/CID byte decoding, protobuf key parsing,
SHA-256, the WHATWG URL constructor) are modelled as explicit parameters
(`Collab`, `CryptoCollab`); the dispatch and codec logic itself is a direct
translation of the source.  Machine bytes are modelled as `Nat` values that
are `< 256` wherever the source guarantees a `Uint8Array`.
-/

set_option maxRecDepth 8000

namespace Libp2p

/-! ## Big-endian digit codecs

`bnToBuf` in the source converts a bigint to bytes through its hexadecimal
string (`bn.toString(16)`, left-padded with one `0` nibble when the digit
count is odd, then parsed two digits at a time); `bufToBn` concatenates the
two-digit hexadecimal form of each byte and re-parses the result in base 16.
We model hexadecimal digit strings as `List Nat` of digit values. -/

/-- Fuel-driven big-endian base-16 digit expansion (`n.toString(16)`);
fuel `n + 1` always suffices, see `hexBE_eq`. -/
def hexBEAux : Nat → Nat → List Nat
  | 0, _ => []
  | fuel + 1, n => if n < 16 then [n] else hexBEAux fuel (n / 16) ++ [n % 16]

/-- Big-endian base-16 digits of `n`, minimal length; `[0]` for `0`,
exactly the digit string `n.toString(16)` produces in the source. -/
def hexBE (n : Nat) : List Nat := hexBEAux (n + 1) n

theorem hexBEAux_congr : ∀ f1 f2 n, n < f1 → n < f2 → hexBEAux f1 n = hexBEAux f2 n
  | 0, _, _, h1, _ => absurd h1 (Nat.not_lt_zero _)
  | _ + 1, 0, _, _, h2 => absurd h2 (Nat.not_lt_zero _)
  | f1 + 1, f2 + 1, n, h1, h2 => by
    simp only [hexBEAux]
    split
    · rfl
    · next h =>
      have hd1 : n / 16 < f1 := by omega
      have hd2 : n / 16 < f2 := by omega
      rw [hexBEAux_congr f1 f2 (n / 16) hd1 hd2]

/-- Unfolding equation for `hexBE`. -/
theorem hexBE_eq (n : Nat) : hexBE n = if n < 16 then [n] else hexBE (n / 16) ++ [n % 16] := by
  show hexBEAux (n + 1) n = _
  simp only [hexBEAux]
  split
  · rfl
  · next h =>
    rw [hexBEAux_congr n (n / 16 + 1) (n / 16) (by omega) (by omega)]
    rfl

theorem hexBE_digit_lt (n : Nat) : ∀ d ∈ hexBE n, d < 16 := by
  rw [hexBE_eq]
  split
  · next h => intro d hd; simp only [List.mem_singleton] at hd; omega
  · next h =>
    intro d hd
    rcases List.mem_append.1 hd with h1 | h2
    · exact hexBE_digit_lt (n / 16) d h1
    · simp only [List.mem_singleton] at h2; omega
termination_by n
decreasing_by omega

theorem hexBE_ne_nil (n : Nat) : hexBE n ≠ [] := by
  rw [hexBE_eq]; split <;> simp

theorem hexBE_foldl (n : Nat) : (hexBE n).foldl (fun a d => a * 16 + d) 0 = n := by
  rw [hexBE_eq]
  split
  · simp
  · next h =>
    rw [List.foldl_append]
    rw [hexBE_foldl (n / 16)]
    simp only [List.foldl_cons, List.foldl_nil]
    omega
termination_by n
decreasing_by omega

/-- Single hexadecimal append step: appending a digit multiplies the value by 16. -/
theorem hexBE_mul16_add (a d : Nat) (ha : 1 ≤ a) (hd : d < 16) :
    hexBE (a * 16 + d) = hexBE a ++ [d] := by
  rw [hexBE_eq (a * 16 + d)]
  have h16 : ¬ a * 16 + d < 16 := by omega
  rw [if_neg h16]
  have hdiv : (a * 16 + d) / 16 = a := by omega
  have hmod : (a * 16 + d) % 16 = d := by omega
  rw [hdiv, hmod]

/-- Appending one byte appends its two hexadecimal digits. -/
theorem hexBE_mul256_add (a x : Nat) (ha : 1 ≤ a) (hx : x < 256) :
    hexBE (a * 256 + x) = hexBE a ++ [x / 16, x % 16] := by
  have key : a * 256 + x = (a * 16 + x / 16) * 16 + x % 16 := by omega
  rw [key, hexBE_mul16_add _ _ (by omega) (by omega),
      hexBE_mul16_add _ _ ha (by omega)]
  simp

/-- Fuel-driven big-endian base-256 expansion; `[]` for `0`. -/
def natBEAux : Nat → Nat → List Nat
  | 0, _ => []
  | fuel + 1, n => if n = 0 then [] else natBEAux fuel (n / 256) ++ [n % 256]

/-- Big-endian base-256 digits of `n`, minimal length, `[]` for `0`. -/
def natBE (n : Nat) : List Nat := natBEAux (n + 1) n

theorem natBEAux_congr : ∀ f1 f2 n, n < f1 → n < f2 → natBEAux f1 n = natBEAux f2 n
  | 0, _, _, h1, _ => absurd h1 (Nat.not_lt_zero _)
  | _ + 1, 0, _, _, h2 => absurd h2 (Nat.not_lt_zero _)
  | f1 + 1, f2 + 1, n, h1, h2 => by
    simp only [natBEAux]
    split
    · rfl
    · next h =>
      have hd1 : n / 256 < f1 := by omega
      have hd2 : n / 256 < f2 := by omega
      rw [natBEAux_congr f1 f2 (n / 256) hd1 hd2]

theorem natBE_eq (n : Nat) : natBE n = if n = 0 then [] else natBE (n / 256) ++ [n % 256] := by
  show natBEAux (n + 1) n = _
  simp only [natBEAux]
  split
  · rfl
  · next h =>
    rw [natBEAux_congr n (n / 256 + 1) (n / 256) (by omega) (by omega)]
    rfl

theorem natBE_digit_lt (n : Nat) : ∀ d ∈ natBE n, d < 256 := by
  rw [natBE_eq]
  split
  · simp
  · next h =>
    intro d hd
    rcases List.mem_append.1 hd with h1 | h2
    · exact natBE_digit_lt (n / 256) d h1
    · simp only [List.mem_singleton] at h2; omega
termination_by n
decreasing_by omega

theorem natBE_ne_nil (n : Nat) (h : 1 ≤ n) : natBE n ≠ [] := by
  rw [natBE_eq]; split
  · omega
  · simp

/-- Big-endian base-256 value of a byte list. -/
def beVal (l : List Nat) : Nat := l.foldl (fun a b => a * 256 + b) 0

theorem natBE_beVal (n : Nat) : beVal (natBE n) = n := by
  rw [beVal, natBE_eq]
  split
  · simp_all
  · next h =>
    rw [List.foldl_append]
    have ih := natBE_beVal (n / 256)
    rw [beVal] at ih
    rw [ih]
    simp only [List.foldl_cons, List.foldl_nil]
    omega
termination_by n
decreasing_by omega

/-! ## `bnToBuf` / `bufToBn` (source: `keys/rsa/utils.ts`) -/

/-- Group a hexadecimal digit string into bytes, two digits at a time
(the `parseInt(hex.slice(j, j + 2), 16)` loop of `bnToBuf`).
A trailing odd digit is dropped, but `bnToBuf` always passes an
even-length digit string. -/
def toBytePairs : List Nat → List Nat
  | d1 :: d2 :: rest => (d1 * 16 + d2) :: toBytePairs rest
  | _ => []

/-- `bnToBuf` from the source: render `n` in hexadecimal, left-pad with a `0`
nibble when the digit count is odd, then read the digits two at a time as
bytes. -/
def bnToBuf (n : Nat) : List Nat :=
  let hex := hexBE n
  let hex := if hex.length % 2 = 1 then 0 :: hex else hex
  toBytePairs hex

/-- The two-digit hexadecimal form of one byte, as produced inside `bufToBn`:
`i.toString(16)` left-padded with `0` when it has a single digit.
Defined for `b < 256` (the elements of a `Uint8Array`). -/
def byteHexDigits (b : Nat) : List Nat := if b < 16 then [b] else [b / 16, b % 16]

/-- The concatenated, per-byte-padded hexadecimal digits built by `bufToBn`. -/
def hexConcat : List Nat → List Nat
  | [] => []
  | b :: rest =>
    (let h := byteHexDigits b; if h.length % 2 = 1 then 0 :: h else h) ++ hexConcat rest

/-- `bufToBn` from the source: concatenate the two-digit hexadecimal form of
each byte and parse the result in base 16 via `BigInt('0x' + ...)`.
On an empty byte sequence the constructed literal is `'0x'`, which is not a
valid bigint: `BigInt` throws a `SyntaxError`, modelled as `none`. -/
def bufToBn (u8 : List Nat) : Option Nat :=
  let hex := hexConcat u8
  if hex.isEmpty then none
  else some (hex.foldl (fun a d => a * 16 + d) 0)

/-- The always-two-digits hexadecimal expansion of a byte list. -/
def hexOfBytes : List Nat → List Nat
  | [] => []
  | b :: rest => b / 16 :: b % 16 :: hexOfBytes rest

theorem hexConcat_eq_hexOfBytes : ∀ l : List Nat, (∀ x ∈ l, x < 256) →
    hexConcat l = hexOfBytes l
  | [], _ => rfl
  | b :: rest, h => by
    have hb : b < 256 := h b (List.mem_cons_self _ _)
    have ih := hexConcat_eq_hexOfBytes rest (fun x hx => h x (List.mem_cons_of_mem _ hx))
    simp only [hexConcat, hexOfBytes, byteHexDigits, ih]
    split
    · next hlt =>
      have : b / 16 = 0 := by omega
      simp [this, hlt]
      omega
    · simp

theorem hexOfBytes_length : ∀ l : List Nat, (hexOfBytes l).length = 2 * l.length
  | [] => rfl
  | _ :: rest => by simp [hexOfBytes, hexOfBytes_length rest]; omega

theorem toBytePairs_hexOfBytes : ∀ l : List Nat, (∀ x ∈ l, x < 256) →
    toBytePairs (hexOfBytes l) = l
  | [], _ => rfl
  | b :: rest, h => by
    have hb : b < 256 := h b (List.mem_cons_self _ _)
    have ih := toBytePairs_hexOfBytes rest (fun x hx => h x (List.mem_cons_of_mem _ hx))
    simp only [hexOfBytes, toBytePairs, ih]
    congr 1
    omega

/-- Base-16 folding over paired digits agrees with base-256 folding over the
corresponding bytes. -/
theorem foldl16_toBytePairs : ∀ (H : List Nat) (a : Nat), H.length % 2 = 0 →
    H.foldl (fun x d => x * 16 + d) a =
      (toBytePairs H).foldl (fun x b => x * 256 + b) a
  | [], _, _ => rfl
  | [_], _, h => by simp at h
  | d1 :: d2 :: rest, a, h => by
    have hr : rest.length % 2 = 0 := by simp at h; omega
    simp only [toBytePairs, List.foldl_cons]
    rw [foldl16_toBytePairs rest ((a * 16 + d1) * 16 + d2) hr]
    congr 1
    omega

/-- Folding the big-endian expansion of a byte list starting from accumulator
`a ≥ 1` appends the digits of the bytes to the digits of `a`. -/
theorem hexBE_foldl_bytes : ∀ (l : List Nat) (a : Nat), 1 ≤ a → (∀ x ∈ l, x < 256) →
    hexBE (l.foldl (fun acc b => acc * 256 + b) a) = hexBE a ++ hexOfBytes l
  | [], _, _, _ => by simp [hexOfBytes]
  | x :: xs, a, ha, h => by
    have hx : x < 256 := h x (List.mem_cons_self _ _)
    simp only [List.foldl_cons]
    rw [hexBE_foldl_bytes xs (a * 256 + x) (by omega)
        (fun y hy => h y (List.mem_cons_of_mem _ hy))]
    rw [hexBE_mul256_add a x ha hx]
    simp [hexOfBytes]

/-- `bnToBuf` is a left inverse of `beVal` on nonempty minimal byte lists. -/
theorem bnToBuf_beVal (b : List Nat) (hne : b ≠ []) (hmin : b.headD 0 ≠ 0)
    (hlt : ∀ x ∈ b, x < 256) : bnToBuf (beVal b) = b := by
  obtain ⟨h, t, rfl⟩ : ∃ h t, b = h :: t := by
    cases b with
    | nil => exact absurd rfl hne
    | cons h t => exact ⟨h, t, rfl⟩
  have hh : h < 256 := hlt h (List.mem_cons_self _ _)
  have hh1 : 1 ≤ h := by simp only [List.headD_cons] at hmin; omega
  have ht : ∀ x ∈ t, x < 256 := fun x hx => hlt x (List.mem_cons_of_mem _ hx)
  have hfold : beVal (h :: t) = t.foldl (fun acc b => acc * 256 + b) h := by
    simp [beVal]
  rw [bnToBuf, hfold, hexBE_foldl_bytes t h hh1 ht]
  by_cases hcase : h < 16
  · have hhex : hexBE h = [h] := by rw [hexBE_eq]; simp [hcase]
    have hlen : ([h] ++ hexOfBytes t).length % 2 = 1 := by
      simp [hexOfBytes_length]; omega
    simp only [hhex, hlen, if_pos]
    have : (0 : Nat) :: [h] ++ hexOfBytes t = hexOfBytes (h :: t) := by
      simp [hexOfBytes]
      omega
    rw [show ((0 : Nat) :: ([h] ++ hexOfBytes t)) = hexOfBytes (h :: t) by
      simpa using this]
    exact toBytePairs_hexOfBytes _ hlt
  · have hhex : hexBE h = [h / 16, h % 16] := by
      rw [hexBE_eq]
      rw [if_neg (by omega)]
      have : hexBE (h / 16) = [h / 16] := by rw [hexBE_eq]; rw [if_pos (by omega)]
      rw [this]
      rfl
    have : hexBE h ++ hexOfBytes t = hexOfBytes (h :: t) := by
      simp [hhex, hexOfBytes]
    rw [this]
    have hlen : (hexOfBytes (h :: t)).length % 2 = 0 := by
      simp [hexOfBytes_length]
    simp only [hlen]
    rw [if_neg (by omega)]
    exact toBytePairs_hexOfBytes _ hlt

theorem toBytePairs_lt : ∀ H : List Nat, (∀ d ∈ H, d < 16) →
    ∀ x ∈ toBytePairs H, x < 256
  | [], _ => by simp [toBytePairs]
  | [d], _ => by simp [toBytePairs]
  | d1 :: d2 :: rest, h => by
    have h1 : d1 < 16 := h d1 (by simp)
    have h2 : d2 < 16 := h d2 (by simp)
    intro x hx
    simp only [toBytePairs, List.mem_cons] at hx
    rcases hx with rfl | hx
    · omega
    · exact toBytePairs_lt rest (fun d hd => h d (by simp [hd])) x hx

theorem toBytePairs_length : ∀ H : List Nat, (toBytePairs H).length = H.length / 2
  | [] => rfl
  | [_] => by simp [toBytePairs]
  | _ :: _ :: rest => by
    simp only [toBytePairs, List.length_cons, toBytePairs_length rest]
    omega

/-- The padded digit string used inside `bnToBuf`. -/
theorem bnToBuf_padded_even (n : Nat) :
    (if (hexBE n).length % 2 = 1 then 0 :: hexBE n else hexBE n).length % 2 = 0 := by
  split
  · next h => simp only [List.length_cons]; omega
  · next h => omega

theorem bnToBuf_ne_nil (n : Nat) : bnToBuf n ≠ [] := by
  have hne := hexBE_ne_nil n
  rw [bnToBuf]
  intro hcon
  have hlen := toBytePairs_length (if (hexBE n).length % 2 = 1 then 0 :: hexBE n else hexBE n)
  rw [hcon] at hlen
  simp only [List.length_nil] at hlen
  have hpos : 1 ≤ (hexBE n).length := by
    cases hx : hexBE n with
    | nil => exact absurd hx hne
    | cons a t => simp
  revert hlen
  split <;> simp <;> omega

theorem bnToBuf_lt (n : Nat) : ∀ x ∈ bnToBuf n, x < 256 := by
  rw [bnToBuf]
  apply toBytePairs_lt
  intro d hd
  have := hexBE_digit_lt n
  revert hd
  split
  · intro hd
    rcases List.mem_cons.1 hd with rfl | hd
    · omega
    · exact this d hd
  · intro hd; exact this d hd

theorem beVal_bnToBuf (n : Nat) : beVal (bnToBuf n) = n := by
  rw [bnToBuf, beVal]
  rw [← foldl16_toBytePairs _ 0 (bnToBuf_padded_even n)]
  split
  · next h =>
    simp only [List.foldl_cons]
    exact hexBE_foldl n
  · exact hexBE_foldl n

/-- `bufToBn` computes the big-endian base-256 value of a nonempty byte list. -/
theorem bufToBn_eq_beVal (b : List Nat) (hne : b ≠ []) (hlt : ∀ x ∈ b, x < 256) :
    bufToBn b = some (beVal b) := by
  rw [bufToBn]
  rw [hexConcat_eq_hexOfBytes b hlt]
  have hnonnil : hexOfBytes b ≠ [] := by
    cases b with
    | nil => exact absurd rfl hne
    | cons h t => simp [hexOfBytes]
  rw [if_neg (by simpa [List.isEmpty_iff] using hnonnil)]
  congr 1
  rw [foldl16_toBytePairs _ 0 (by simp [hexOfBytes_length])]
  rw [toBytePairs_hexOfBytes b hlt]
  rfl

/-! ## Unpadded base64url (the `uint8arrays` `'base64url'` codec)

Modelled from the spec: the JWK fields are "big-integers encoded as unpadded
base64url byte strings"; the `uint8arrays` to/from-string collaborator is not
part of the supplied sources.  RFC 4648 §5 alphabet, no padding characters. -/

def b64chars : List Char :=
  "ABCDEFGHIJKLMNOPQRSTUVWXYZabcdefghijklmnopqrstuvwxyz0123456789-_".toList

def b64chr (v : Nat) : Char := b64chars.getD v 'A'

def b64val (c : Char) : Option Nat := b64chars.findIdx? (fun x => x = c)

/-- Encode bytes to unpadded base64url characters, three bytes to four
characters, with the standard 2- and 3-character tails. -/
def b64encode : List Nat → List Char
  | [] => []
  | [a] => [b64chr (a / 4), b64chr (a % 4 * 16)]
  | [a, b] => [b64chr (a / 4), b64chr (a % 4 * 16 + b / 16), b64chr (b % 16 * 4)]
  | a :: b :: c :: rest =>
    b64chr (a / 4) :: b64chr (a % 4 * 16 + b / 16) :: b64chr (b % 16 * 4 + c / 64) ::
      b64chr (c % 64) :: b64encode rest

/-- Decode unpadded base64url characters; `none` models the exception the
collaborator throws on characters outside the alphabet or an impossible
length remainder of one. -/
def b64decode : List Char → Option (List Nat)
  | [] => some []
  | [w, x] => do
    let a ← b64val w
    let b ← b64val x
    some [a * 4 + b / 16]
  | [w, x, y] => do
    let a ← b64val w
    let b ← b64val x
    let c ← b64val y
    some [a * 4 + b / 16, b % 16 * 16 + c / 4]
  | w :: x :: y :: z :: rest => do
    let a ← b64val w
    let b ← b64val x
    let c ← b64val y
    let d ← b64val z
    let tail ← b64decode rest
    some ((a * 4 + b / 16) :: (b % 16 * 16 + c / 4) :: (c % 4 * 64 + d) :: tail)
  | [_] => none

def b64encodeStr (b : List Nat) : String := String.mk (b64encode b)

def b64decodeStr (s : String) : Option (List Nat) := b64decode s.toList

theorem b64val_b64chr : ∀ v, v < 64 → b64val (b64chr v) = some v := by decide

theorem b64decode_b64encode : ∀ b : List Nat, (∀ x ∈ b, x < 256) →
    b64decode (b64encode b) = some b
  | [], _ => rfl
  | [a], h => by
    have ha : a < 256 := h a (by simp)
    simp only [b64encode, b64decode]
    rw [b64val_b64chr (a / 4) (by omega), b64val_b64chr (a % 4 * 16) (by omega)]
    simp only [Option.bind_eq_bind, Option.some_bind]
    congr 2
    omega
  | [a, b], h => by
    have ha : a < 256 := h a (by simp)
    have hb : b < 256 := h b (by simp)
    simp only [b64encode, b64decode]
    rw [b64val_b64chr (a / 4) (by omega), b64val_b64chr (a % 4 * 16 + b / 16) (by omega),
        b64val_b64chr (b % 16 * 4) (by omega)]
    simp only [Option.bind_eq_bind, Option.some_bind]
    congr 2
    · omega
    · congr 1
      omega
  | a :: b :: c :: rest, h => by
    have ha : a < 256 := h a (by simp)
    have hb : b < 256 := h b (by simp)
    have hc : c < 256 := h c (by simp)
    have ih := b64decode_b64encode rest (fun x hx => h x (by simp [hx]))
    simp only [b64encode, b64decode]
    rw [b64val_b64chr (a / 4) (by omega), b64val_b64chr (a % 4 * 16 + b / 16) (by omega),
        b64val_b64chr (b % 16 * 4 + c / 64) (by omega), b64val_b64chr (c % 64) (by omega)]
    simp only [Option.bind_eq_bind, Option.some_bind, ih]
    congr 2
    · omega
    · congr 1
      · omega
      · congr 1
        omega

theorem b64decodeStr_b64encodeStr (b : List Nat) (h : ∀ x ∈ b, x < 256) :
    b64decodeStr (b64encodeStr b) = some b := by
  rw [b64encodeStr, b64decodeStr]
  have : (String.mk (b64encode b)).toList = b64encode b := rfl
  rw [this]
  exact b64decode_b64encode b h

/-! ## DER encode/decode for the node shapes RSA needs

Modelled from the spec: the source delegates to the `asn1js` library, which is
not part of the supplied sources.  Per §4.2, encoding is canonical DER
(definite length, minimal signed-integer content with a single leading zero
byte only when needed to keep a non-negative value non-negative), and decoding
accepts only well-formed DER, failing (`none`) otherwise. -/

/-- Definite-length DER length octets: short form below 128, otherwise
`0x80 + k` followed by the `k` minimal big-endian bytes of the length. -/
def lenBytes (n : Nat) : List Nat :=
  if n < 128 then [n] else (128 + (natBE n).length) :: natBE n

/-- One tag-length-value DER node. -/
def encTLV (tag : Nat) (content : List Nat) : List Nat :=
  tag :: lenBytes content.length ++ content

/-- Minimal two's-complement content octets of an ASN.1 INTEGER. -/
def intContent (v : Int) : List Nat :=
  if v < 0 then
    let m0 := (natBE v.natAbs).length
    let m := if v.natAbs ≤ 2 ^ (8 * m0 - 1) then m0 else m0 + 1
    natBE (256 ^ m - v.natAbs)
  else
    let b := if v = 0 then [0] else natBE v.toNat
    if 128 ≤ b.headD 0 then 0 :: b else b

/-- DER INTEGER node (`asn1js.Integer.fromBigInt`). -/
def encInt (v : Int) : List Nat := encTLV 2 (intContent v)

/-- Concatenated INTEGER nodes, the content of a PKCS#1 SEQUENCE. -/
def encIntList : List Int → List Nat
  | [] => []
  | v :: vs => encInt v ++ encIntList vs

/-- The signed value of INTEGER content octets (`asn1js` `toBigInt`). -/
def intValue (content : List Nat) : Int :=
  if 128 ≤ content.headD 0 then (beVal content : Int) - (256 : Int) ^ content.length
  else (beVal content : Int)

/-- Parse DER length octets, returning the length and the remaining bytes. -/
def parseLen : List Nat → Option (Nat × List Nat)
  | [] => none
  | b :: rest =>
    if b < 128 then some (b, rest)
    else
      let k := b - 128
      if k = 0 then none
      else if rest.length < k then none
      else some (beVal (rest.take k), rest.drop k)

/-- Parse one DER node: tag, content octets, and the remaining bytes. -/
def parseTLV (bytes : List Nat) : Option (Nat × List Nat × List Nat) :=
  match bytes with
  | [] => none
  | tag :: rest =>
    match parseLen rest with
    | none => none
    | some (len, rest2) =>
      if rest2.length < len then none
      else some (tag, rest2.take len, rest2.drop len)

/-- Parse the content of a SEQUENCE as a run of INTEGER nodes.  The fuel
argument only bounds the recursion; any fuel at least the number of nodes
suffices. -/
def parseInts : Nat → List Nat → Option (List Int)
  | _, [] => some []
  | 0, _ => none
  | fuel + 1, bs =>
    match parseTLV bs with
    | none => none
    | some (tag, content, rest) =>
      if tag = 2 then
        match parseInts fuel rest with
        | none => none
        | some vs => some (intValue content :: vs)
      else none

theorem parseLen_lenBytes (n : Nat) (rest : List Nat) :
    parseLen (lenBytes n ++ rest) = some (n, rest) := by
  rw [lenBytes]
  split
  · next h => simp [parseLen, h]
  · next h =>
    have hk : (natBE n).length ≠ 0 := by
      have := natBE_ne_nil n (by omega)
      intro hcon
      exact this (List.eq_nil_of_length_eq_zero hcon)
    simp only [List.cons_append, parseLen]
    rw [if_neg (by omega)]
    rw [if_neg (by omega)]
    rw [if_neg (by simp only [List.length_append]; omega)]
    have htake : (natBE n ++ rest).take (128 + (natBE n).length - 128) = natBE n := by
      simp
    have hdrop : (natBE n ++ rest).drop (128 + (natBE n).length - 128) = rest := by
      simp
    rw [htake, hdrop, natBE_beVal]

theorem parseTLV_encTLV (tag : Nat) (content rest : List Nat) :
    parseTLV (encTLV tag content ++ rest) = some (tag, content, rest) := by
  rw [encTLV]
  simp only [List.cons_append, List.append_assoc, parseTLV]
  rw [parseLen_lenBytes content.length (content ++ rest)]
  have hnl : ¬ (content ++ rest).length < content.length := by
    simp only [List.length_append]; omega
  simp [hnl]

theorem encTLV_length (tag : Nat) (content : List Nat) :
    (encTLV tag content).length = 1 + (lenBytes content.length).length + content.length := by
  simp [encTLV]
  omega

theorem lenBytes_ne_nil (n : Nat) : lenBytes n ≠ [] := by
  rw [lenBytes]; split <;> simp

theorem encTLV_length_ge (tag : Nat) (content : List Nat) :
    content.length + 2 ≤ (encTLV tag content).length := by
  have hnn := lenBytes_ne_nil content.length
  have h1 : 1 ≤ (lenBytes content.length).length := by
    cases hx : lenBytes content.length with
    | nil => exact absurd hx hnn
    | cons a t => simp
  rw [encTLV_length]
  omega

theorem parseTLV_encTLV_nil (tag : Nat) (content : List Nat) :
    parseTLV (encTLV tag content) = some (tag, content, []) := by
  have := parseTLV_encTLV tag content []
  simpa using this

theorem intValue_intContent (v : Int) (hv : 0 ≤ v) : intValue (intContent v) = v := by
  rw [intContent, if_neg (by omega)]
  by_cases h0 : v = 0
  · subst h0
    simp [intValue, beVal]
  · rw [if_neg h0]
    have hne := natBE_ne_nil v.toNat (by omega)
    show intValue (if 128 ≤ (natBE v.toNat).headD 0 then 0 :: natBE v.toNat
      else natBE v.toNat) = v
    split
    · next hhd =>
      rw [intValue]
      have : ((0 : Nat) :: natBE v.toNat).headD 0 = 0 := rfl
      rw [this, if_neg (by omega)]
      have : beVal (0 :: natBE v.toNat) = beVal (natBE v.toNat) := by
        simp [beVal]
      rw [this, natBE_beVal]
      omega
    · next hhd =>
      rw [intValue, if_neg (by omega), natBE_beVal]
      omega

theorem parseInts_encIntList : ∀ (vs : List Int) (fuel : Nat),
    (∀ v ∈ vs, 0 ≤ v) → vs.length ≤ fuel → parseInts fuel (encIntList vs) = some vs
  | [], _, _, _ => by simp [encIntList, parseInts]
  | v :: vs, fuel, hnn, hlen => by
    obtain ⟨f, rfl⟩ : ∃ f, fuel = f + 1 := by
      cases fuel with
      | zero => simp at hlen
      | succ f => exact ⟨f, rfl⟩
    have hbs : encIntList (v :: vs) = 2 :: (lenBytes (intContent v).length ++
        (intContent v ++ encIntList vs)) := by
      simp [encIntList, encInt, encTLV]
    rw [hbs]
    simp only [parseInts]
    have hp : parseTLV (2 :: (lenBytes (intContent v).length ++
        (intContent v ++ encIntList vs))) = some (2, intContent v, encIntList vs) := by
      have := parseTLV_encTLV 2 (intContent v) (encIntList vs)
      simpa [encTLV] using this
    have ih := parseInts_encIntList vs f (fun x hx => hnn x (by simp [hx]))
      (by simp at hlen; omega)
    have hval := intValue_intContent v (hnn v (by simp))
    simp [hp, ih, hval]

theorem encIntList_length_ge : ∀ vs : List Int, vs.length ≤ (encIntList vs).length
  | [] => by simp [encIntList]
  | v :: vs => by
    have ih := encIntList_length_ge vs
    have h1 : 1 ≤ (encInt v).length := by
      have := lenBytes_ne_nil (intContent v).length
      simp [encInt, encTLV]
    simp only [encIntList, List.length_append, List.length_cons]
    omega

/-! ## Error kinds

The error classes thrown by the two modules, plus `native` for exceptions
raised by JavaScript built-ins (`TypeError` from the `URL` constructor,
`SyntaxError` from `BigInt('0x')`) rather than by a libp2p error class. -/

inductive Err where
  | invalidCID
  | invalidMultihash
  | invalidParameters
  | unsupportedKeyType
  | invalidPublicKey
  | native
deriving DecidableEq, Repr

theorem except_bind_ok {α β : Type} (x : α) (f : α → Except Err β) :
    (Except.ok x : Except Err α) >>= f = f x := rfl

theorem except_bind_error {α β : Type} (e : Err) (f : α → Except Err β) :
    (Except.error e : Except Err α) >>= f = Except.error e := rfl

/-! ## JWK records and the PKCS#1 / PKIX converters (source: `rsa/utils.ts`) -/

/-- A `JsonWebKey` as the source uses it: the eight RSA big-integer fields as
base64url strings, plus `kty` and `alg`.  All fields optional, as in the
TypeScript type. -/
structure JWK where
  kty : Option String := none
  n : Option String := none
  e : Option String := none
  d : Option String := none
  p : Option String := none
  q : Option String := none
  dp : Option String := none
  dq : Option String := none
  qi : Option String := none
  alg : Option String := none
deriving DecidableEq, Repr

/-- Decode one base64url JWK field and parse it as a big integer — the
`bufToBn(uint8ArrayFromString(s, 'base64url'))` pipeline.  Failures of either
built-in surface as thrown `native` errors. -/
def fieldToBn (s : String) : Except Err Nat :=
  match b64decodeStr s with
  | none => .error .native
  | some bytes =>
    match bufToBn bytes with
    | none => .error .native
    | some v => .ok v

/-- `jwkToPkcs1`: null-check all eight private fields (a missing one is an
`InvalidParametersError`), then build the nine-INTEGER DER SEQUENCE
`[0, n, e, d, p, q, dp, dq, qi]`. -/
def jwkToPkcs1 (jwk : JWK) : Except Err (List Nat) :=
  if jwk.n = none ∨ jwk.e = none ∨ jwk.d = none ∨ jwk.p = none ∨ jwk.q = none ∨
      jwk.dp = none ∨ jwk.dq = none ∨ jwk.qi = none then
    .error .invalidParameters
  else do
    let vn ← fieldToBn (jwk.n.getD "")
    let ve ← fieldToBn (jwk.e.getD "")
    let vd ← fieldToBn (jwk.d.getD "")
    let vp ← fieldToBn (jwk.p.getD "")
    let vq ← fieldToBn (jwk.q.getD "")
    let vdp ← fieldToBn (jwk.dp.getD "")
    let vdq ← fieldToBn (jwk.dq.getD "")
    let vqi ← fieldToBn (jwk.qi.getD "")
    pure (encTLV 0x30 (encIntList
      (([0, vn, ve, vd, vp, vq, vdp, vdq, vqi] : List Nat).map Int.ofNat)))

/-- `pkcs1ToJwk`: parse the DER SEQUENCE, read elements 1 through 8 of its
INTEGER list positionally (element 0, the version, is never inspected), and
assemble the JWK with the constant `kty: 'RSA'` and `alg: 'RS256'` fields.
`none` models the `TypeError`s the source hits on malformed input (it performs
no explicit validation).  A parsed negative INTEGER would reach `bnToBuf`
through a bigint whose hexadecimal form carries a minus sign; that
implementation-defined garbage path is not modelled and also yields `none`. -/
def pkcs1ToJwk (bytes : List Nat) : Option JWK :=
  match parseTLV bytes with
  | none => none
  | some (tag, content, _) =>
    if tag = 0x30 then
      match parseInts bytes.length content with
      | none => none
      | some (_v0 :: a :: b :: c :: d :: e :: f :: g :: h :: _) =>
        if 0 ≤ a ∧ 0 ≤ b ∧ 0 ≤ c ∧ 0 ≤ d ∧ 0 ≤ e ∧ 0 ≤ f ∧ 0 ≤ g ∧ 0 ≤ h then
          some { n := some (b64encodeStr (bnToBuf a.toNat)),
                 e := some (b64encodeStr (bnToBuf b.toNat)),
                 d := some (b64encodeStr (bnToBuf c.toNat)),
                 p := some (b64encodeStr (bnToBuf d.toNat)),
                 q := some (b64encodeStr (bnToBuf e.toNat)),
                 dp := some (b64encodeStr (bnToBuf f.toNat)),
                 dq := some (b64encodeStr (bnToBuf g.toNat)),
                 qi := some (b64encodeStr (bnToBuf h.toNat)),
                 kty := some "RSA",
                 alg := some "RS256" }
        else none
      | some _ => none
    else none

/-- The `rsaEncryption` AlgorithmIdentifier node
`Sequence[ObjectIdentifier(1.2.840.113549.1.1.1), Null]` in DER. -/
def rsaAlgId : List Nat :=
  encTLV 0x30 ([6, 9, 0x2a, 0x86, 0x48, 0x86, 0xf7, 0x0d, 0x01, 0x01, 0x01] ++ [5, 0])

/-- `jwkToPkix`: null-check `n` and `e`, then build
`Sequence[AlgorithmIdentifier, BitString(Sequence[n, e])]`; the BitString
content carries the standard leading unused-bits octet `0`. -/
def jwkToPkix (jwk : JWK) : Except Err (List Nat) :=
  if jwk.n = none ∨ jwk.e = none then
    .error .invalidParameters
  else do
    let vn ← fieldToBn (jwk.n.getD "")
    let ve ← fieldToBn (jwk.e.getD "")
    pure (encTLV 0x30 (rsaAlgId ++
      encTLV 3 (0 :: encTLV 0x30 (encInt (Int.ofNat vn) ++ encInt (Int.ofNat ve)))))

/-- `pkixToJwk`: unwrap `SubjectPublicKeyInfo` — outer SEQUENCE, skip the
AlgorithmIdentifier, enter the BitString (dropping its unused-bits octet),
parse the inner SEQUENCE of `[n, e]`.  As with `pkcs1ToJwk`, `none` models
the exceptions thrown on any malformed input. -/
def pkixToJwk (bytes : List Nat) : Option JWK :=
  match parseTLV bytes with
  | none => none
  | some (tag, content, _) =>
    if tag = 0x30 then
      match parseTLV content with
      | none => none
      | some (_algTag, _algContent, rest1) =>
        match parseTLV rest1 with
        | none => none
        | some (bitTag, bitContent, _) =>
          if bitTag = 3 then
            match bitContent with
            | [] => none
            | _unused :: inner =>
              match parseTLV inner with
              | none => none
              | some (seqTag, seqContent, _) =>
                if seqTag = 0x30 then
                  match parseInts bytes.length seqContent with
                  | none => none
                  | some (a :: b :: _) =>
                    if 0 ≤ a ∧ 0 ≤ b then
                      some { kty := some "RSA",
                             n := some (b64encodeStr (bnToBuf a.toNat)),
                             e := some (b64encodeStr (bnToBuf b.toNat)) }
                    else none
                  | some _ => none
                else none
          else none
    else none

/-! ## Round-trip results for the RSA JWK codec -/

theorem except_pure {α : Type} (x : α) : (pure x : Except Err α) = Except.ok x := rfl

/-- A byte sequence in the form JWA requires of RSA JWK fields: nonempty,
no leading zero octet, bytes below 256. -/
def goodField (b : List Nat) : Prop :=
  b ≠ [] ∧ b.headD 0 ≠ 0 ∧ ∀ x ∈ b, x < 256

instance : DecidablePred goodField := fun b => by
  unfold goodField
  infer_instance

/-- The JWK private record whose eight big-integer fields are the base64url
encodings of the given byte sequences, with the `kty`/`alg` values
`pkcs1ToJwk` emits. -/
def mkPrivJwk (fn fe fd fp fq fdp fdq fqi : List Nat) : JWK :=
  { kty := some "RSA", alg := some "RS256",
    n := some (b64encodeStr fn), e := some (b64encodeStr fe), d := some (b64encodeStr fd),
    p := some (b64encodeStr fp), q := some (b64encodeStr fq), dp := some (b64encodeStr fdp),
    dq := some (b64encodeStr fdq), qi := some (b64encodeStr fqi) }

theorem fieldToBn_b64encodeStr (b : List Nat) (h : goodField b) :
    fieldToBn (b64encodeStr b) = .ok (beVal b) := by
  simp only [fieldToBn, b64decodeStr_b64encodeStr b h.2.2, bufToBn_eq_beVal b h.1 h.2.2]

theorem jwkToPkcs1_mkPrivJwk (fn fe fd fp fq fdp fdq fqi : List Nat)
    (h1 : goodField fn) (h2 : goodField fe) (h3 : goodField fd) (h4 : goodField fp)
    (h5 : goodField fq) (h6 : goodField fdp) (h7 : goodField fdq) (h8 : goodField fqi) :
    jwkToPkcs1 (mkPrivJwk fn fe fd fp fq fdp fdq fqi) =
      .ok (encTLV 0x30 (encIntList
        (([0, beVal fn, beVal fe, beVal fd, beVal fp, beVal fq, beVal fdp, beVal fdq,
           beVal fqi] : List Nat).map Int.ofNat))) := by
  rw [jwkToPkcs1]
  rw [if_neg (by simp [mkPrivJwk])]
  simp only [mkPrivJwk, Option.getD_some,
    fieldToBn_b64encodeStr fn h1, fieldToBn_b64encodeStr fe h2,
    fieldToBn_b64encodeStr fd h3, fieldToBn_b64encodeStr fp h4,
    fieldToBn_b64encodeStr fq h5, fieldToBn_b64encodeStr fdp h6,
    fieldToBn_b64encodeStr fdq h7, fieldToBn_b64encodeStr fqi h8,
    except_bind_ok, except_pure]

theorem pkcs1ToJwk_encIntList (v0 v1 v2 v3 v4 v5 v6 v7 v8 : Nat) :
    pkcs1ToJwk (encTLV 0x30 (encIntList
      (([v0, v1, v2, v3, v4, v5, v6, v7, v8] : List Nat).map Int.ofNat))) =
    some { n := some (b64encodeStr (bnToBuf v1)), e := some (b64encodeStr (bnToBuf v2)),
           d := some (b64encodeStr (bnToBuf v3)), p := some (b64encodeStr (bnToBuf v4)),
           q := some (b64encodeStr (bnToBuf v5)), dp := some (b64encodeStr (bnToBuf v6)),
           dq := some (b64encodeStr (bnToBuf v7)), qi := some (b64encodeStr (bnToBuf v8)),
           kty := some "RSA", alg := some "RS256" } := by
  have hvs : (([v0, v1, v2, v3, v4, v5, v6, v7, v8] : List Nat).map Int.ofNat) =
      [Int.ofNat v0, Int.ofNat v1, Int.ofNat v2, Int.ofNat v3, Int.ofNat v4, Int.ofNat v5,
       Int.ofNat v6, Int.ofNat v7, Int.ofNat v8] := by
    simp
  rw [hvs]
  set vs : List Int := [Int.ofNat v0, Int.ofNat v1, Int.ofNat v2, Int.ofNat v3, Int.ofNat v4,
    Int.ofNat v5, Int.ofNat v6, Int.ofNat v7, Int.ofNat v8] with hvsdef
  have hTLV : parseTLV (encTLV 0x30 (encIntList vs)) = some (0x30, encIntList vs, []) := by
    have := parseTLV_encTLV 0x30 (encIntList vs) []
    simpa using this
  have hfuel : vs.length ≤ (encTLV 0x30 (encIntList vs)).length := by
    have hg := encIntList_length_ge vs
    have hb := encTLV_length_ge 0x30 (encIntList vs)
    omega
  have hnonneg : ∀ v ∈ vs, 0 ≤ v := by
    intro v hv
    rw [hvsdef] at hv
    simp only [List.mem_cons, List.not_mem_nil, or_false] at hv
    rcases hv with rfl | rfl | rfl | rfl | rfl | rfl | rfl | rfl | rfl <;> exact Int.ofNat_nonneg _
  have hInts := parseInts_encIntList vs _ hnonneg hfuel
  rw [pkcs1ToJwk]
  rw [hTLV]
  simp only [hvsdef] at hInts
  simp only [hvsdef, hInts, Int.ofNat_nonneg, and_self, if_true]
  rfl

/-- C6: for every unsigned big integer `n`, `bufToBn (bnToBuf n)` recovers `n`
(`bnToBuf` emits the minimal big-endian bytes, padding the hexadecimal form
with one leading zero nibble only to reach whole bytes). -/
theorem C6_bufToBn_bnToBuf (n : Nat) : bufToBn (bnToBuf n) = some n := by
  rw [bufToBn_eq_beVal _ (bnToBuf_ne_nil n) (bnToBuf_lt n), beVal_bnToBuf]

/-- C5 counterexample: a JWK private record with all eight big-integer fields
present (each the minimal encoding of the value 1) but no `alg` member does
not survive the PKCS#1 round trip: `pkcs1ToJwk` re-adds `alg: 'RS256'`,
so the result differs from the input record. -/
theorem C5_roundtrip_counterexample :
    (jwkToPkcs1 { mkPrivJwk [1] [1] [1] [1] [1] [1] [1] [1] with alg := none }).toOption.bind
        pkcs1ToJwk ≠
      some { mkPrivJwk [1] [1] [1] [1] [1] [1] [1] [1] with alg := none } := by
  decide

/-- C5 (amended): for JWK private records whose eight fields are unpadded
base64url encodings of nonempty minimal byte sequences and whose `kty`/`alg`
members are exactly the `'RSA'`/`'RS256'` constants `pkcs1ToJwk` produces,
encoding to PKCS#1 DER and decoding back is the identity. -/
theorem C5_pkcs1_roundtrip (fn fe fd fp fq fdp fdq fqi : List Nat)
    (h1 : goodField fn) (h2 : goodField fe) (h3 : goodField fd) (h4 : goodField fp)
    (h5 : goodField fq) (h6 : goodField fdp) (h7 : goodField fdq) (h8 : goodField fqi) :
    (jwkToPkcs1 (mkPrivJwk fn fe fd fp fq fdp fdq fqi)).toOption.bind pkcs1ToJwk =
      some (mkPrivJwk fn fe fd fp fq fdp fdq fqi) := by
  rw [jwkToPkcs1_mkPrivJwk fn fe fd fp fq fdp fdq fqi h1 h2 h3 h4 h5 h6 h7 h8]
  show pkcs1ToJwk _ = _
  rw [pkcs1ToJwk_encIntList]
  rw [bnToBuf_beVal fn h1.1 h1.2.1 h1.2.2, bnToBuf_beVal fe h2.1 h2.2.1 h2.2.2,
      bnToBuf_beVal fd h3.1 h3.2.1 h3.2.2, bnToBuf_beVal fp h4.1 h4.2.1 h4.2.2,
      bnToBuf_beVal fq h5.1 h5.2.1 h5.2.2, bnToBuf_beVal fdp h6.1 h6.2.1 h6.2.2,
      bnToBuf_beVal fdq h7.1 h7.2.1 h7.2.2, bnToBuf_beVal fqi h8.1 h8.2.1 h8.2.2]
  rfl

/-- C5 witness: the round trip at the record whose eight fields all encode
the byte sequence `[1]`. -/
theorem C5_pkcs1_roundtrip_witness :
    (jwkToPkcs1 (mkPrivJwk [1] [1] [1] [1] [1] [1] [1] [1])).toOption.bind pkcs1ToJwk =
      some (mkPrivJwk [1] [1] [1] [1] [1] [1] [1] [1]) :=
  C5_pkcs1_roundtrip [1] [1] [1] [1] [1] [1] [1] [1]
    (by decide) (by decide) (by decide) (by decide)
    (by decide) (by decide) (by decide) (by decide)

/-- C9: every JWK record `pkcs1ToJwk` returns carries `kty: 'RSA'` and
`alg: 'RS256'` unconditionally; and on the DER SEQUENCE of any nine
integers, the eight JWK big-integer fields are read positionally from
elements 1 through 8 while element 0 (the version) is ignored — it may
take any value without affecting the result. -/
theorem C9_pkcs1ToJwk_fields :
    (∀ bytes jwk, pkcs1ToJwk bytes = some jwk →
      jwk.kty = some "RSA" ∧ jwk.alg = some "RS256") ∧
    (∀ v0 v1 v2 v3 v4 v5 v6 v7 v8 : Nat,
      pkcs1ToJwk (encTLV 0x30 (encIntList
        (([v0, v1, v2, v3, v4, v5, v6, v7, v8] : List Nat).map Int.ofNat))) =
      some { n := some (b64encodeStr (bnToBuf v1)), e := some (b64encodeStr (bnToBuf v2)),
             d := some (b64encodeStr (bnToBuf v3)), p := some (b64encodeStr (bnToBuf v4)),
             q := some (b64encodeStr (bnToBuf v5)), dp := some (b64encodeStr (bnToBuf v6)),
             dq := some (b64encodeStr (bnToBuf v7)), qi := some (b64encodeStr (bnToBuf v8)),
             kty := some "RSA", alg := some "RS256" }) := by
  constructor
  · intro bytes jwk h
    rw [pkcs1ToJwk] at h
    repeat' split at h
    all_goals first
      | (rw [Option.some_inj] at h; subst h; exact ⟨rfl, rfl⟩)
      | simp at h
  · intro v0 v1 v2 v3 v4 v5 v6 v7 v8
    exact pkcs1ToJwk_encIntList v0 v1 v2 v3 v4 v5 v6 v7 v8

/-- The PKCS#1 SEQUENCE of the integers 9 down to 1 (version 9: a nonzero,
and thus visibly ignored, version element). -/
def c9bytes : List Nat :=
  encTLV 0x30 (encIntList (([9, 8, 7, 6, 5, 4, 3, 2, 1] : List Nat).map Int.ofNat))

/-- The JWK record parsed from `c9bytes`. -/
def c9jwk : JWK := (pkcs1ToJwk c9bytes).getD {}

/-- C9 witness: the field extraction at `c9bytes`. -/
theorem C9_pkcs1ToJwk_fields_witness :
    c9jwk.kty = some "RSA" ∧ c9jwk.alg = some "RS256" :=
  C9_pkcs1ToJwk_fields.1 c9bytes c9jwk (by decide)

/-- C10: `bufToBn` on the empty byte sequence fails (the literal `'0x'` is
not a valid bigint), so `jwkToPkcs1` and `jwkToPkix` on a record whose `n`
field is present but decodes to zero bytes fail with the thrown built-in
error, not the documented `InvalidParametersError`. -/
theorem C10_empty_field_native_error :
    bufToBn [] = none ∧
    Err.native ≠ Err.invalidParameters ∧
    (∀ jwk s, jwk.n = some s → b64decodeStr s = some [] →
      jwk.e ≠ none → jwk.d ≠ none → jwk.p ≠ none → jwk.q ≠ none →
      jwk.dp ≠ none → jwk.dq ≠ none → jwk.qi ≠ none →
      jwkToPkcs1 jwk = .error .native) ∧
    (∀ jwk s, jwk.n = some s → b64decodeStr s = some [] → jwk.e ≠ none →
      jwkToPkix jwk = .error .native) := by
  refine ⟨rfl, by decide, ?_, ?_⟩
  · intro jwk s hn hdec he hd hp hq hdp hdq hqi
    rw [jwkToPkcs1]
    rw [if_neg (by simp [hn, he, hd, hp, hq, hdp, hdq, hqi])]
    have hfield : fieldToBn (jwk.n.getD "") = .error .native := by
      rw [hn, Option.getD_some, fieldToBn, hdec]
      rfl
    simp only [hfield, except_bind_error]
  · intro jwk s hn hdec he
    rw [jwkToPkix]
    rw [if_neg (by simp [hn, he])]
    have hfield : fieldToBn (jwk.n.getD "") = .error .native := by
      rw [hn, Option.getD_some, fieldToBn, hdec]
      rfl
    simp only [hfield, except_bind_error]

/-- C10 witness: the record with all fields present whose `n` is the empty
base64url string. -/
theorem C10_empty_field_native_error_witness :
    jwkToPkcs1 { mkPrivJwk [1] [1] [1] [1] [1] [1] [1] [1] with n := some "" } =
        .error .native ∧
      jwkToPkix { mkPrivJwk [1] [1] [1] [1] [1] [1] [1] [1] with n := some "" } =
        .error .native :=
  ⟨C10_empty_field_native_error.2.2.1 _ "" rfl (by decide) (by decide) (by decide)
      (by decide) (by decide) (by decide) (by decide) (by decide),
    C10_empty_field_native_error.2.2.2 _ "" rfl (by decide) (by decide)⟩

/-! ## The RSA key pipeline of `rsa/utils.ts`, with collaborator tracing

`rsaKeySize` and the SHA-256 / protobuf / key-generation collaborators
come from modules that are not among the supplied sources; they are modelled
as explicit parameters (`CryptoCollab`).  Each entry point additionally
returns the ordered list of expensive collaborator calls it performed
(`Ev`), so that "fails before fingerprinting / before invoking the
key-generation collaborator" is a statement about the trace. -/

/-- A multihash: a hash-algorithm code together with the digest bytes. -/
structure MultihashDigest where
  code : Nat
  digest : List Nat
deriving DecidableEq, Repr

structure JWKKeyPair where
  privateKey : JWK
  publicKey : JWK
deriving DecidableEq, Repr

/-- The `RSAPublicKeyClass` value built in `rsa/utils.ts`: the JWK and the
sha2-256 multihash fingerprint. -/
structure RSAPublicKey where
  jwk : JWK
  digest : MultihashDigest
deriving DecidableEq, Repr

/-- The `RSAPrivateKeyClass` value built in `rsa/utils.ts`. -/
structure RSAPrivateKey where
  jwk : JWK
  publicKey : RSAPublicKey
deriving DecidableEq, Repr

/-- External collaborators of the RSA pipeline: SHA-256, the protobuf
`PublicKey` wrapper encoding (with `Type: RSA`), and RSA key generation. -/
structure CryptoCollab where
  sha256 : List Nat → List Nat
  pbEncodeRSA : List Nat → List Nat
  generateRSAKey : Nat → JWKKeyPair

/-- Expensive collaborator calls, recorded in order. -/
inductive Ev where
  | sha256Hash
  | encodePkix
  | keygen
deriving DecidableEq, Repr

def MAX_RSA_KEY_SIZE : Nat := 8192

def SHA2_256_CODE : Nat := 0x12

/-- Modelled from the spec: `rsaKeySize` lives in `keys/rsa/index.ts`, which
is not among the supplied sources.  Per §4.4 the guarded quantity is the RSA
modulus size in bits, i.e. eight bits per byte of the decoded `n` field. -/
def rsaKeySize (jwk : JWK) : Nat :=
  8 * ((b64decodeStr (jwk.n.getD "")).getD []).length

/-- `jwkToJWKKeyPair` from the source: the public half keeps `kty`, `n`, `e`. -/
def jwkToJWKKeyPair (key : JWK) : JWKKeyPair :=
  { privateKey := key
  , publicKey := { kty := key.kty, n := key.n, e := key.e } }

/-- `pkixToRSAPublicKey`: parse PKIX, enforce the key-size bound, then
fingerprint the raw PKIX bytes through the protobuf wrapper and SHA-256. -/
def pkixToRSAPublicKey (CC : CryptoCollab) (bytes : List Nat) :
    Except Err RSAPublicKey × List Ev :=
  match pkixToJwk bytes with
  | none => (.error .native, [])
  | some jwk =>
    if rsaKeySize jwk > MAX_RSA_KEY_SIZE then (.error .invalidPublicKey, [])
    else
      (.ok { jwk := jwk,
             digest := { code := SHA2_256_CODE,
                         digest := CC.sha256 (CC.pbEncodeRSA bytes) } },
       [.sha256Hash])

/-- `jwkToRSAPrivateKey`: enforce the key-size bound, split the JWK into a
key pair, PKIX-encode the public half, fingerprint it. -/
def jwkToRSAPrivateKey (CC : CryptoCollab) (jwk : JWK) :
    Except Err RSAPrivateKey × List Ev :=
  if rsaKeySize jwk > MAX_RSA_KEY_SIZE then (.error .invalidParameters, [])
  else
    let keys := jwkToJWKKeyPair jwk
    match jwkToPkix keys.publicKey with
    | .error er => (.error er, [.encodePkix])
    | .ok pkix =>
      (.ok { jwk := keys.privateKey,
             publicKey := { jwk := keys.publicKey,
                            digest := { code := SHA2_256_CODE,
                                        digest := CC.sha256 (CC.pbEncodeRSA pkix) } } },
       [.encodePkix, .sha256Hash])

/-- `pkcs1ToRSAPrivateKey = jwkToRSAPrivateKey ∘ pkcs1ToJwk`. -/
def pkcs1ToRSAPrivateKey (CC : CryptoCollab) (bytes : List Nat) :
    Except Err RSAPrivateKey × List Ev :=
  match pkcs1ToJwk bytes with
  | none => (.error .native, [])
  | some jwk => jwkToRSAPrivateKey CC jwk

/-- `generateRSAKeyPair`: reject oversized requests before calling the
key-generation collaborator. -/
def generateRSAKeyPair (CC : CryptoCollab) (bits : Nat) :
    Except Err RSAPrivateKey × List Ev :=
  if bits > MAX_RSA_KEY_SIZE then (.error .invalidParameters, [])
  else
    let keys := CC.generateRSAKey bits
    match jwkToPkix keys.publicKey with
    | .error er => (.error er, [.keygen, .encodePkix])
    | .ok pkix =>
      (.ok { jwk := keys.privateKey,
             publicKey := { jwk := keys.publicKey,
                            digest := { code := SHA2_256_CODE,
                                        digest := CC.sha256 (CC.pbEncodeRSA pkix) } } },
       [.keygen, .encodePkix, .sha256Hash])

/-- C4: every RSA-key-producing entry point rejects a modulus above
`MAX_RSA_KEY_SIZE = 8192` bits with the size-policy error and an empty
collaborator trace: no key generation, no PKIX encoding, no SHA-256
fingerprinting happens first; in particular `generateRSAKeyPair` with
`bits > 8192` never calls the key-generation collaborator. -/
theorem C4_key_size_guard :
    (∀ CC bits, bits > MAX_RSA_KEY_SIZE →
      generateRSAKeyPair CC bits = (.error .invalidParameters, [])) ∧
    (∀ CC jwk, rsaKeySize jwk > MAX_RSA_KEY_SIZE →
      jwkToRSAPrivateKey CC jwk = (.error .invalidParameters, [])) ∧
    (∀ CC bytes jwk, pkixToJwk bytes = some jwk → rsaKeySize jwk > MAX_RSA_KEY_SIZE →
      pkixToRSAPublicKey CC bytes = (.error .invalidPublicKey, [])) ∧
    (∀ CC bytes jwk, pkcs1ToJwk bytes = some jwk → rsaKeySize jwk > MAX_RSA_KEY_SIZE →
      pkcs1ToRSAPrivateKey CC bytes = (.error .invalidParameters, [])) := by
  refine ⟨?_, ?_, ?_, ?_⟩
  · intro CC bits h
    rw [generateRSAKeyPair, if_pos h]
  · intro CC jwk h
    rw [jwkToRSAPrivateKey, if_pos h]
  · intro CC bytes jwk hp h
    rw [pkixToRSAPublicKey, hp]
    simp only [if_pos h]
  · intro CC bytes jwk hp h
    rw [pkcs1ToRSAPrivateKey, hp]
    show jwkToRSAPrivateKey CC jwk = _
    rw [jwkToRSAPrivateKey, if_pos h]

/-- A concrete collaborator instantiation for witnesses. -/
def cc0 : CryptoCollab :=
  { sha256 := fun bs => bs
  , pbEncodeRSA := fun bs => bs
  , generateRSAKey := fun _ => { privateKey := {}, publicKey := {} } }

/-- A JWK whose modulus field encodes 1025 bytes (8200 bits), above the bound. -/
def c4jwkBig : JWK :=
  { kty := some "RSA", n := some (b64encodeStr (List.replicate 1025 1)),
    e := some (b64encodeStr [1]) }

theorem c4jwkBig_size : rsaKeySize c4jwkBig > MAX_RSA_KEY_SIZE := by
  have hdec : b64decodeStr (b64encodeStr (List.replicate 1025 1)) =
      some (List.replicate 1025 1) := by
    apply b64decodeStr_b64encodeStr
    intro x hx
    rw [List.eq_of_mem_replicate hx]
    omega
  have : rsaKeySize c4jwkBig = 8 * 1025 := by
    rw [rsaKeySize]
    show 8 * ((b64decodeStr (b64encodeStr (List.replicate 1025 1))).getD []).length = _
    rw [hdec]
    simp
  rw [this, MAX_RSA_KEY_SIZE]
  omega

/-- The 1025-byte modulus `256 ^ 1024 = 2 ^ 8192`, written as a byte value. -/
def c4modulus : Nat := beVal (1 :: List.replicate 1024 0)

theorem c4_bnToBuf_modulus : bnToBuf c4modulus = 1 :: List.replicate 1024 0 := by
  rw [c4modulus]
  apply bnToBuf_beVal
  · simp
  · simp
  · intro x hx
    rcases List.mem_cons.1 hx with rfl | hx
    · omega
    · rw [List.eq_of_mem_replicate hx]
      omega

theorem c4_modulus_field_size (jwk : JWK)
    (hn : jwk.n = some (b64encodeStr (bnToBuf c4modulus))) :
    rsaKeySize jwk > MAX_RSA_KEY_SIZE := by
  have hlt : ∀ x ∈ bnToBuf c4modulus, x < 256 := bnToBuf_lt c4modulus
  have hdec : b64decodeStr (b64encodeStr (bnToBuf c4modulus)) =
      some (bnToBuf c4modulus) := b64decodeStr_b64encodeStr _ hlt
  have hlen : (bnToBuf c4modulus).length = 1025 := by
    rw [c4_bnToBuf_modulus]
    simp
  rw [rsaKeySize, hn, Option.getD_some, hdec, Option.getD_some, hlen, MAX_RSA_KEY_SIZE]
  omega

set_option maxHeartbeats 1000000 in
/-- Parsing the PKIX encoding of two non-negative integers. -/
theorem pkixToJwk_enc (vn ve : Nat) :
    pkixToJwk (encTLV 0x30 (rsaAlgId ++
      encTLV 3 (0 :: encTLV 0x30 (encInt (Int.ofNat vn) ++ encInt (Int.ofNat ve))))) =
    some { kty := some "RSA", n := some (b64encodeStr (bnToBuf vn)),
           e := some (b64encodeStr (bnToBuf ve)) } := by
  have h2 : encInt (Int.ofNat vn) ++ encInt (Int.ofNat ve) =
      encIntList [Int.ofNat vn, Int.ofNat ve] := by
    simp [encIntList]
  have hnonneg : ∀ v ∈ ([Int.ofNat vn, Int.ofNat ve] : List Int), 0 ≤ v := by
    intro v hv
    simp only [List.mem_cons, List.not_mem_nil, or_false] at hv
    rcases hv with rfl | rfl <;> exact Int.ofNat_nonneg _
  have hInts : ∀ fuel, 2 ≤ fuel →
      parseInts fuel (encInt (Int.ofNat vn) ++ encInt (Int.ofNat ve)) =
        some [Int.ofNat vn, Int.ofNat ve] := by
    intro fuel hf
    rw [h2]
    exact parseInts_encIntList _ _ hnonneg (by simpa using hf)
  have hbound : 2 ≤ (encTLV 0x30 (encTLV 0x30
      (([6, 9, 0x2a, 0x86, 0x48, 0x86, 0xf7, 0x0d, 0x01, 0x01, 0x01] : List Nat) ++ [5, 0]) ++
      encTLV 3 (0 :: encTLV 0x30
        (encInt (Int.ofNat vn) ++ encInt (Int.ofNat ve))))).length := by
    have := encTLV_length_ge 0x30 (encTLV 0x30
      (([6, 9, 0x2a, 0x86, 0x48, 0x86, 0xf7, 0x0d, 0x01, 0x01, 0x01] : List Nat) ++ [5, 0]) ++
      encTLV 3 (0 :: encTLV 0x30 (encInt (Int.ofNat vn) ++ encInt (Int.ofNat ve))))
    omega
  have hInts2 := hInts _ hbound
  simp only [pkixToJwk, rsaAlgId, parseTLV_encTLV_nil, parseTLV_encTLV, hInts2,
    Int.ofNat_nonneg, and_self, if_true]
  rfl

/-- PKIX DER bytes carrying the 1025-byte modulus `c4modulus`. -/
def c4pkixBytes : List Nat :=
  encTLV 0x30 (rsaAlgId ++
    encTLV 3 (0 :: encTLV 0x30 (encInt (Int.ofNat c4modulus) ++ encInt (Int.ofNat 65537))))

def c4pkixJwk : JWK :=
  { kty := some "RSA", n := some (b64encodeStr (bnToBuf c4modulus)),
    e := some (b64encodeStr (bnToBuf 65537)) }

theorem c4pkix_parse : pkixToJwk c4pkixBytes = some c4pkixJwk :=
  pkixToJwk_enc c4modulus 65537

/-- PKCS#1 DER bytes carrying the 1025-byte modulus `c4modulus`. -/
def c4pkcs1Bytes : List Nat :=
  encTLV 0x30 (encIntList
    (([0, c4modulus, 1, 1, 1, 1, 1, 1, 1] : List Nat).map Int.ofNat))

def c4pkcs1Jwk : JWK :=
  { n := some (b64encodeStr (bnToBuf c4modulus)), e := some (b64encodeStr (bnToBuf 1)),
    d := some (b64encodeStr (bnToBuf 1)), p := some (b64encodeStr (bnToBuf 1)),
    q := some (b64encodeStr (bnToBuf 1)), dp := some (b64encodeStr (bnToBuf 1)),
    dq := some (b64encodeStr (bnToBuf 1)), qi := some (b64encodeStr (bnToBuf 1)),
    kty := some "RSA", alg := some "RS256" }

theorem c4pkcs1_parse : pkcs1ToJwk c4pkcs1Bytes = some c4pkcs1Jwk :=
  pkcs1ToJwk_encIntList 0 c4modulus 1 1 1 1 1 1 1

/-- C4 witness: concrete oversized inputs for all four entry points. -/
theorem C4_key_size_guard_witness :
    generateRSAKeyPair cc0 8193 = (.error .invalidParameters, []) ∧
    jwkToRSAPrivateKey cc0 c4jwkBig = (.error .invalidParameters, []) ∧
    pkixToRSAPublicKey cc0 c4pkixBytes = (.error .invalidPublicKey, []) ∧
    pkcs1ToRSAPrivateKey cc0 c4pkcs1Bytes = (.error .invalidParameters, []) :=
  ⟨C4_key_size_guard.1 cc0 8193 (by decide),
   C4_key_size_guard.2.1 cc0 c4jwkBig c4jwkBig_size,
   C4_key_size_guard.2.2.1 cc0 c4pkixBytes c4pkixJwk c4pkix_parse
     (c4_modulus_field_size c4pkixJwk rfl),
   C4_key_size_guard.2.2.2 cc0 c4pkcs1Bytes c4pkcs1Jwk c4pkcs1_parse
     (c4_modulus_field_size c4pkcs1Jwk rfl)⟩

/-! ## The peer-id module (source: `@libp2p/peer-id` `index.ts`)

`peerIdFromString` / `peerIdFromMultihash` / `peerIdFromCID` /
`peerIdFromPublicKey` are translated directly; the byte-level collaborators
they call (`publicKeyFromMultihash` from `@libp2p/crypto/keys`, UTF-8
decoding, the WHATWG `URL` constructor, base58btc/multihash/CID decoding
from `multiformats`) are explicit parameters (`Collab`). -/

def LIBP2P_KEY_CODE : Nat := 0x72

def TRANSPORT_IPFS_GATEWAY_HTTP_CODE : Nat := 0x0920

/-- The `CID` runtime value as the guard in `peerIdFromCID` sees it:
`multihash` and `version` may be absent (`== null`). -/
structure CID where
  version : Option Nat
  code : Nat
  multihash : Option MultihashDigest
deriving DecidableEq, Repr

inductive KeyType where
  | Ed25519
  | secp256k1
  | RSA
  | other
deriving DecidableEq, Repr

/-- A public key as this module sees it: its algorithm tag and the multihash
of the CID its externally implemented `toCID()` method returns. -/
structure PublicKey where
  type : KeyType
  toCIDMultihash : MultihashDigest
deriving DecidableEq, Repr

structure PrivateKey where
  publicKey : PublicKey
deriving DecidableEq, Repr

/-- The four peer-identity variants; each carries what its class constructor
in `peer-id.js` is handed.  `RSAPeerId` is the only one whose key is
optional; `URLPeerId` wraps the URL produced by the `URL` constructor. -/
inductive PeerId where
  | ed25519 (multihash : MultihashDigest) (publicKey : PublicKey)
  | secp256k1 (multihash : MultihashDigest) (publicKey : PublicKey)
  | rsa (multihash : MultihashDigest) (publicKey : Option PublicKey)
  | url (href : String)
deriving DecidableEq, Repr

/-- The embedded public key of a peer identity, if any. -/
def PeerId.publicKeyOf : PeerId → Option PublicKey
  | .ed25519 _ pk => some pk
  | .secp256k1 _ pk => some pk
  | .rsa _ pk => pk
  | .url _ => none

/-- External collaborators of the peer-id module.  `parseURL` models the
WHATWG `URL` constructor: `some` is the parsed (normalized) URL, `none` a
thrown `TypeError`.  The `Except Unit` results model thrown exceptions of
the byte-level decoders. -/
structure Collab where
  publicKeyFromMultihash : MultihashDigest → Except Unit PublicKey
  utf8ToString : List Nat → String
  parseURL : String → Option String
  base58MultihashDecode : String → Except Unit MultihashDigest
  digestDecode : List Nat → Except Unit MultihashDigest
  cidDecode : List Nat → Except Unit CID

structure MultibaseDecoder where
  decode : String → Except Unit (List Nat)

def isIdentityMultihash (mh : MultihashDigest) : Bool := mh.code == 0x00

def isSha256Multihash (mh : MultihashDigest) : Bool := mh.code == 0x12

/-- `peerIdFromMultihash`: sha2-256 multihashes become key-less `RSAPeerId`s;
identity multihashes are parsed as protobuf public keys, falling back to the
URL interpretation of the digest only when key parsing throws (a key of any
other algorithm falls through to the `InvalidMultihashError`); any other
code is an `InvalidMultihashError`.  A `TypeError` thrown by the `URL`
constructor inside the catch block propagates uncaught (`Err.native`). -/
def peerIdFromMultihash (C : Collab) (multihash : MultihashDigest) : Except Err PeerId :=
  if isSha256Multihash multihash then
    .ok (.rsa multihash none)
  else if isIdentityMultihash multihash then
    match C.publicKeyFromMultihash multihash with
    | .ok publicKey =>
      if publicKey.type = .Ed25519 then .ok (.ed25519 multihash publicKey)
      else if publicKey.type = .secp256k1 then .ok (.secp256k1 multihash publicKey)
      else .error .invalidMultihash
    | .error _ =>
      match C.parseURL (C.utf8ToString multihash.digest) with
      | some u => .ok (.url u)
      | none => .error .native
  else .error .invalidMultihash

/-- `peerIdFromCID`: the guard rejects a missing multihash or version, and a
version-1 CID whose codec is neither `0x72` nor `0x0920`; codec `0x0920`
yields a `URLPeerId` from the digest bytes; everything else delegates to
`peerIdFromMultihash`. -/
def peerIdFromCID (C : Collab) (cid : CID) : Except Err PeerId :=
  match cid.multihash, cid.version with
  | some mh, some v =>
    if v = 1 ∧ cid.code ≠ LIBP2P_KEY_CODE ∧ cid.code ≠ TRANSPORT_IPFS_GATEWAY_HTTP_CODE then
      .error .invalidCID
    else if cid.code = TRANSPORT_IPFS_GATEWAY_HTTP_CODE then
      match C.parseURL (C.utf8ToString mh.digest) with
      | some u => .ok (.url u)
      | none => .error .native
    else
      peerIdFromMultihash C mh
  | _, _ => .error .invalidCID

/-- `peerIdFromPublicKey`: dispatch on the algorithm tag; each branch stores
the multihash of the key's own `toCID()` and the key itself. -/
def peerIdFromPublicKey (publicKey : PublicKey) : Except Err PeerId :=
  if publicKey.type = .Ed25519 then
    .ok (.ed25519 publicKey.toCIDMultihash publicKey)
  else if publicKey.type = .secp256k1 then
    .ok (.secp256k1 publicKey.toCIDMultihash publicKey)
  else if publicKey.type = .RSA then
    .ok (.rsa publicKey.toCIDMultihash (some publicKey))
  else
    .error .unsupportedKeyType

def peerIdFromPrivateKey (privateKey : PrivateKey) : Except Err PeerId :=
  peerIdFromPublicKey privateKey.publicKey

/-- `str.charAt(0) === '1' || str.charAt(0) === 'Q'`. -/
def startsWith1orQ (s : String) : Bool :=
  match s.toList with
  | [] => false
  | c :: _ => c == '1' || c == 'Q'

/-- `peerIdFromString`: legacy base58btc strings (leading `1`/`Q`) decode
directly to a multihash; otherwise a multibase decoder is mandatory and its
failure is an `InvalidParametersError`; the decoded bytes are tried as a
multihash and — when that whole branch throws — as a CID. -/
def peerIdFromString (C : Collab) (str : String) (decoder : Option MultibaseDecoder) :
    Except Err PeerId :=
  if startsWith1orQ str then
    match C.base58MultihashDecode str with
    | .ok multihash => peerIdFromMultihash C multihash
    | .error _ => .error .native
  else
    match decoder with
    | none => .error .invalidParameters
    | some d =>
      match d.decode str with
      | .error _ => .error .invalidParameters
      | .ok buf =>
        match (match C.digestDecode buf with
               | .ok multihash => peerIdFromMultihash C multihash
               | .error _ => .error .native) with
        | .ok pid => .ok pid
        | .error _ =>
          match C.cidDecode buf with
          | .ok cid => peerIdFromCID C cid
          | .error _ => .error .native

theorem peerIdFromMultihash_ne_invalidCID (C : Collab) (mh : MultihashDigest) :
    peerIdFromMultihash C mh ≠ .error .invalidCID := by
  rw [peerIdFromMultihash]
  split
  · simp
  · split
    · split
      · split
        · simp
        · split
          · simp
          · simp
      · split
        · simp
        · simp
    · simp

/-! ## Claims about the peer-id module -/

/-- A concrete collaborator instantiation in which protobuf key parsing and
URL parsing both fail, UTF-8 decoding maps byte values to characters, and
the byte decoders reject everything. -/
def collabFail : Collab :=
  { publicKeyFromMultihash := fun _ => .error ()
  , utf8ToString := fun bs => String.mk (bs.map Char.ofNat)
  , parseURL := fun _ => none
  , base58MultihashDecode := fun _ => .error ()
  , digestDecode := fun _ => .error ()
  , cidDecode := fun _ => .error () }

/-- C1 counterexample: a CID with present multihash and present version 0 is
not rejected — `peerIdFromCID` accepts it and dispatches on its sha2-256
multihash, returning a key-less `RSAPeerId` instead of failing with the
invalid-CID error. -/
theorem C1_version0_accepted_counterexample :
    peerIdFromCID collabFail
      { version := some 0, code := 0x70, multihash := some { code := 0x12, digest := [1, 2] } } =
      .ok (.rsa { code := 0x12, digest := [1, 2] } none) := rfl

/-- C1 (amended): `peerIdFromCID` raises the invalid-CID error exactly when
the multihash or the version is absent, or the version is 1 with a codec
that is neither 0x72 nor 0x0920.  A version-0 (or any non-1-version) CID
with both fields present passes the guard and is dispatched on its codec
and multihash instead of being rejected. -/
theorem C1_fromCID_invalidCID_iff (C : Collab) (cid : CID) :
    peerIdFromCID C cid = .error .invalidCID ↔
      cid.multihash = none ∨ cid.version = none ∨
        (cid.version = some 1 ∧ cid.code ≠ LIBP2P_KEY_CODE ∧
          cid.code ≠ TRANSPORT_IPFS_GATEWAY_HTTP_CODE) := by
  obtain ⟨v, c, m⟩ := cid
  cases m with
  | none => simp [peerIdFromCID]
  | some mh =>
    cases v with
    | none => simp [peerIdFromCID]
    | some ver =>
      simp only [peerIdFromCID]
      by_cases hguard : ver = 1 ∧ c ≠ LIBP2P_KEY_CODE ∧ c ≠ TRANSPORT_IPFS_GATEWAY_HTTP_CODE
      · rw [if_pos hguard]
        simp [hguard]
      · rw [if_neg hguard]
        split
        · next hc =>
          constructor
          · intro h
            split at h <;> simp_all
          · intro h
            exfalso
            rcases h with h | h | h
            · simp at h
            · simp at h
            · simp only [Option.some_inj] at h
              exact hguard ⟨h.1, h.2.1, h.2.2⟩
        · next hc =>
          constructor
          · intro h
            exact absurd h (peerIdFromMultihash_ne_invalidCID C mh)
          · intro h
            exfalso
            rcases h with h | h | h
            · simp at h
            · simp at h
            · simp only [Option.some_inj] at h
              exact hguard ⟨h.1, h.2.1, h.2.2⟩

/-- C1 witness: the characterization at a version-1 CID with codec 0x70. -/
theorem C1_fromCID_invalidCID_iff_witness :
    peerIdFromCID collabFail
      { version := some 1, code := 0x70, multihash := some { code := 0x12, digest := [1] } } =
      .error .invalidCID :=
  (C1_fromCID_invalidCID_iff collabFail _).mpr
    (Or.inr (Or.inr ⟨rfl, by decide, by decide⟩))

/-- An RSA public key value for the C2 theorems. -/
def rsaPk0 : PublicKey :=
  { type := .RSA, toCIDMultihash := { code := 0x12, digest := [1, 2, 3] } }

/-- C2 counterexample: `peerIdFromPublicKey` on an RSA public key embeds the
key in the returned identity — the embedded-key field is `some rsaPk0`,
not absent as the claim states. -/
theorem C2_embeds_key_counterexample :
    (peerIdFromPublicKey rsaPk0).map PeerId.publicKeyOf = .ok (some rsaPk0) ∧
      (some rsaPk0 : Option PublicKey) ≠ none :=
  ⟨rfl, by simp⟩

/-- C2 (amended): for every RSA public key `pk`, `peerIdFromPublicKey pk`
returns an `RSAPeerId` carrying the multihash of the key's own `toCID()`
(the sha2-256 fingerprint) together with the embedded public key `pk`
itself — the key is stored, not omitted. -/
theorem C2_fromPublicKey_rsa (pk : PublicKey) (h : pk.type = .RSA) :
    peerIdFromPublicKey pk = .ok (.rsa pk.toCIDMultihash (some pk)) := by
  rw [peerIdFromPublicKey, h]
  simp

/-- C2 witness: the amended claim at `rsaPk0`. -/
theorem C2_fromPublicKey_rsa_witness :
    peerIdFromPublicKey rsaPk0 =
      .ok (.rsa { code := 0x12, digest := [1, 2, 3] } (some rsaPk0)) :=
  C2_fromPublicKey_rsa rsaPk0 rfl

/-- C3 counterexample: an identity multihash whose digest parses neither as
a recognized key nor as a URL makes `peerIdFromMultihash` fail with the
uncaught `TypeError` of the `URL` constructor (`Err.native`) — not with the
invalid-multihash error the claim states. -/
theorem C3_url_typeerror_counterexample :
    peerIdFromMultihash collabFail { code := 0x00, digest := [255] } = .error .native ∧
      Err.native ≠ Err.invalidMultihash :=
  ⟨rfl, by simp⟩

/-- C3 (amended): for an identity multihash, the URL fallback runs only when
key parsing itself throws; if the URL constructor then also fails, the
resulting error is the propagated `TypeError` (`native`), not an
invalid-multihash error.  When key parsing succeeds with an algorithm other
than Ed25519/secp256k1, the URL fallback is skipped and the
invalid-multihash error is raised. -/
theorem C3_identity_fallback (C : Collab) (mh : MultihashDigest) (hid : mh.code = 0x00) :
    (C.publicKeyFromMultihash mh = .error () →
      C.parseURL (C.utf8ToString mh.digest) = none →
      peerIdFromMultihash C mh = .error .native) ∧
    (∀ pk, C.publicKeyFromMultihash mh = .ok pk → pk.type = .RSA →
      peerIdFromMultihash C mh = .error .invalidMultihash) := by
  have hs : isSha256Multihash mh = false := by
    rw [isSha256Multihash, hid]
    rfl
  have hi : isIdentityMultihash mh = true := by
    rw [isIdentityMultihash, hid]
    rfl
  constructor
  · intro hk hu
    simp only [peerIdFromMultihash, hs, hi, hk, hu, Bool.false_eq_true, if_false, if_true]
  · intro pk hk htype
    simp only [peerIdFromMultihash, hs, hi, hk, htype, Bool.false_eq_true, if_false, if_true]
    simp

/-- The RSA key returned by the key parser of `collabRsaKey`. -/
def rsaPkParsed : PublicKey :=
  { type := .RSA, toCIDMultihash := { code := 0x12, digest := [] } }

/-- A collaborator instantiation whose key parser always returns an RSA key
(as when an identity multihash carries an RSA public-key protobuf). -/
def collabRsaKey : Collab :=
  { collabFail with publicKeyFromMultihash := fun _ => .ok rsaPkParsed }

/-- C3 witness: both branches of the amended claim at concrete inputs. -/
theorem C3_identity_fallback_witness :
    peerIdFromMultihash collabFail { code := 0x00, digest := [254] } = .error .native ∧
      peerIdFromMultihash collabRsaKey { code := 0x00, digest := [1] } =
        .error .invalidMultihash :=
  ⟨(C3_identity_fallback collabFail { code := 0x00, digest := [254] } rfl).1 rfl rfl,
   (C3_identity_fallback collabRsaKey { code := 0x00, digest := [1] } rfl).2 rsaPkParsed rfl rfl⟩

/-- C7: a string whose first character is `'Q'` and whose base58btc decoding
is a sha2-256-coded multihash produces a key-less `RSAPeerId` carrying
exactly that multihash; no multibase decoder is supplied (`none`). -/
theorem C7_fromString_Q (C : Collab) (str : String) (mh : MultihashDigest)
    (hq : str.toList.headD ' ' = 'Q')
    (hdec : C.base58MultihashDecode str = .ok mh)
    (hcode : mh.code = 0x12) :
    peerIdFromString C str none = .ok (.rsa mh none) := by
  have hstart : startsWith1orQ str = true := by
    rw [startsWith1orQ]
    cases hx : str.toList with
    | nil =>
      rw [hx] at hq
      exact absurd hq (by decide)
    | cons c rest =>
      rw [hx] at hq
      simp only [List.headD_cons] at hq
      subst hq
      rfl
  rw [peerIdFromString, if_pos hstart, hdec]
  show peerIdFromMultihash C mh = _
  have hs : isSha256Multihash mh = true := by
    rw [isSha256Multihash, hcode]
    rfl
  rw [peerIdFromMultihash, hs]
  simp

/-- A collaborator instantiation whose base58btc multihash decoder accepts
exactly the string `"QmA"`. -/
def collabQ : Collab :=
  { collabFail with base58MultihashDecode := fun s =>
      if s = "QmA" then .ok { code := 0x12, digest := [7] } else .error () }

/-- C7 witness: `"QmA"` under `collabQ`, with no decoder. -/
theorem C7_fromString_Q_witness :
    peerIdFromString collabQ "QmA" none =
      .ok (.rsa { code := 0x12, digest := [7] } none) :=
  C7_fromString_Q collabQ "QmA" { code := 0x12, digest := [7] }
    (by decide) (by rfl) rfl

/-- C8: a version-1 CID with codec 0x0920 yields a `URLPeerId` wrapping the
URL the `URL` constructor produces from the digest bytes — for a multihash
of any code, so `peerIdFromMultihash` (which would return an `RSAPeerId`
for a sha2-256 code) is bypassed. -/
theorem C8_fromCID_url (C : Collab) (mh : MultihashDigest) (u : String)
    (hurl : C.parseURL (C.utf8ToString mh.digest) = some u) :
    peerIdFromCID C { version := some 1, code := 0x0920, multihash := some mh } =
      .ok (.url u) := by
  simp [peerIdFromCID, hurl, LIBP2P_KEY_CODE, TRANSPORT_IPFS_GATEWAY_HTTP_CODE]

/-- A collaborator instantiation whose URL constructor accepts every string
unchanged. -/
def collabURL : Collab :=
  { collabFail with parseURL := fun s => some s }

/-- The UTF-8 bytes of `"https://example.com"`. -/
def urlDigest : List Nat := "https://example.com".toList.map Char.toNat

/-- C8 witness: the digest holding the UTF-8 encoding of
`"https://example.com"` yields the `URLPeerId` wrapping exactly that URL. -/
theorem C8_fromCID_url_witness :
    peerIdFromCID collabURL
      { version := some 1, code := 0x0920,
        multihash := some { code := 0x00, digest := urlDigest } } =
      .ok (.url "https://example.com") :=
  C8_fromCID_url collabURL { code := 0x00, digest := urlDigest } "https://example.com"
    (by decide)

end Libp2p
